import Mathlib

/-!
A shallow embedding of the persistence layer of the budget-planner
repository (`database.py`).  The SQLite database is modelled as a record of
three tables (lists of rows in storage order) together with the next
auto-increment id of each table.  Each method of `BudgetDatabase` becomes a
pure function on this state; SQL `TEXT` comparison is the lexicographic
order on `String`, `REAL` amounts are modelled as rationals, `ORDER BY` is a
stable insertion sort by the ordering the query names, and Python truthiness
of optional string arguments (`if start_date:`) is modelled explicitly.
-/

namespace BudgetPlanner

/-- A row of the `categories` table: `id INTEGER PRIMARY KEY AUTOINCREMENT,
name TEXT UNIQUE NOT NULL, type TEXT NOT NULL, icon TEXT`. -/
structure Category where
  id : Nat
  name : String
  ctype : String
  icon : String
  deriving DecidableEq

/-- A row of the `transactions` table: `id INTEGER PRIMARY KEY AUTOINCREMENT,
amount REAL NOT NULL, category TEXT NOT NULL, description TEXT,
date TEXT NOT NULL, type TEXT NOT NULL`. -/
structure Txn where
  id : Nat
  amount : ℚ
  category : String
  description : String
  date : String
  ttype : String
  deriving DecidableEq

/-- A row of the `budgets` table: `id INTEGER PRIMARY KEY AUTOINCREMENT,
category TEXT NOT NULL, amount REAL NOT NULL, month INTEGER NOT NULL,
year INTEGER NOT NULL, UNIQUE(category, month, year)`. -/
structure Budget where
  id : Nat
  category : String
  amount : ℚ
  month : Int
  year : Int
  deriving DecidableEq

/-- The database state: the three tables in storage (rowid) order plus the
next auto-increment id of each table. -/
structure DB where
  categories : List Category
  transactions : List Txn
  budgets : List Budget
  nextCatId : Nat
  nextTxnId : Nat
  nextBudgetId : Nat
  deriving DecidableEq

/-- A freshly created database file: empty tables, auto-increment ids at 1. -/
def emptyDB : DB := ⟨[], [], [], 1, 1, 1⟩

/-- The `default_categories` seed list of `init_database`, in source order. -/
def default_categories : List (String × String × String) :=
  [ ("Food & Dining", "expense", "🍔"),
    ("Transportation", "expense", "🚗"),
    ("Housing & Rent", "expense", "🏠"),
    ("Utilities", "expense", "💡"),
    ("Entertainment", "expense", "🎬"),
    ("Shopping", "expense", "🛒"),
    ("Healthcare", "expense", "🏥"),
    ("Education", "expense", "📚"),
    ("Other", "expense", "📌"),
    ("Salary", "income", "💰"),
    ("Freelance", "income", "💼"),
    ("Investment", "income", "📈"),
    ("Gift", "income", "🎁"),
    ("Other Income", "income", "💵") ]

/-- Whether a category row with the given (unique) name exists. -/
def hasCategoryName (db : DB) (n : String) : Bool :=
  db.categories.any (fun c => decide (c.name = n))

/-- One `INSERT OR IGNORE INTO categories (name, type, icon)` statement: the
row is appended with a fresh id unless a row with the same unique name
already exists, in which case nothing happens. -/
def insertCatIfAbsent (db : DB) (n ct ic : String) : DB :=
  if hasCategoryName db n then db
  else { db with
          categories := db.categories ++ [⟨db.nextCatId, n, ct, ic⟩],
          nextCatId := db.nextCatId + 1 }

/-- The `for name, cat_type, icon in default_categories:` loop of
`init_database`, over an arbitrary seed list. -/
def seedFold (l : List (String × String × String)) (db : DB) : DB :=
  l.foldl (fun d t => insertCatIfAbsent d t.1 t.2.1 t.2.2) db

/-- `init_database`: `CREATE TABLE IF NOT EXISTS` for the three tables (in
the model the tables always exist) followed by `INSERT OR IGNORE` of each
default category, in source order. -/
def init_database (db : DB) : DB :=
  seedFold default_categories db

/-- `add_transaction`: `INSERT INTO transactions (amount, category,
description, date, type) VALUES (?, ?, ?, ?, ?)`. -/
def add_transaction (db : DB) (amount : ℚ) (category description date ttype : String) : DB :=
  { db with
      transactions := db.transactions ++ [⟨db.nextTxnId, amount, category, description, date, ttype⟩],
      nextTxnId := db.nextTxnId + 1 }

/-- The clause `if start_date: query += " AND date >= ?"` of
`get_transactions`: a `None` or empty-string argument adds no constraint. -/
def passStart : Option String → Txn → Bool
  | none, _ => true
  | some s, t => if s = "" then true else decide (s ≤ t.date)

/-- The clause `if end_date: query += " AND date <= ?"`. -/
def passEnd : Option String → Txn → Bool
  | none, _ => true
  | some s, t => if s = "" then true else decide (t.date ≤ s)

/-- The clause `if trans_type: query += " AND type = ?"`. -/
def passType : Option String → Txn → Bool
  | none, _ => true
  | some s, t => if s = "" then true else decide (t.ttype = s)

/-- The clause `if category: query += " AND category = ?"`. -/
def passCategory : Option String → Txn → Bool
  | none, _ => true
  | some s, t => if s = "" then true else decide (t.category = s)

/-- The conjunction of the `WHERE` clauses `get_transactions` builds. -/
def txnMatches (sd ed ty ca : Option String) (t : Txn) : Bool :=
  passStart sd t && passEnd ed t && passType ty t && passCategory ca t

/-- The `ORDER BY date DESC` ordering of `get_transactions`. -/
def dateDesc (a b : Txn) : Prop := b.date ≤ a.date

instance : DecidableRel dateDesc :=
  fun a b => inferInstanceAs (Decidable (b.date ≤ a.date))

instance : IsTotal Txn dateDesc := ⟨fun a b => le_total b.date a.date⟩

instance : IsTrans Txn dateDesc := ⟨fun _ _ _ h1 h2 => le_trans h2 h1⟩

/-- `get_transactions`: `SELECT * FROM transactions WHERE 1=1` with the
optional clauses, `ORDER BY date DESC`. -/
def get_transactions (db : DB) (sd ed ty ca : Option String) : List Txn :=
  List.insertionSort dateDesc (db.transactions.filter (txnMatches sd ed ty ca))

/-- `delete_transaction`: `DELETE FROM transactions WHERE id = ?`. -/
def delete_transaction (db : DB) (tid : Nat) : DB :=
  { db with transactions := db.transactions.filter (fun t => decide (t.id ≠ tid)) }

/-- The clause `WHERE type = ?` of `get_categories`, present only when the
`cat_type` argument is truthy. -/
def catPass : Option String → Category → Bool
  | none, _ => true
  | some s, c => if s = "" then true else decide (c.ctype = s)

/-- The `ORDER BY name` ordering of `get_categories`. -/
def catNameLe (a b : Category) : Prop := a.name ≤ b.name

instance : DecidableRel catNameLe :=
  fun a b => inferInstanceAs (Decidable (a.name ≤ b.name))

instance : IsTotal Category catNameLe := ⟨fun a b => le_total a.name b.name⟩

instance : IsTrans Category catNameLe := ⟨fun _ _ _ h1 h2 => le_trans h1 h2⟩

/-- The rows `SELECT name, icon FROM categories [WHERE type = ?] ORDER BY
name` fetches, before the Python list comprehension formats them. -/
def categoryRows (db : DB) (catType : Option String) : List Category :=
  List.insertionSort catNameLe (db.categories.filter (catPass catType))

/-- `get_categories`: the fetched rows formatted by
`[(f"{icon} {name}") for name, icon in categories]`. -/
def get_categories (db : DB) (catType : Option String) : List String :=
  (categoryRows db catType).map (fun c => c.icon ++ " " ++ c.name)

/-- `add_category`: `INSERT INTO categories (name, type, icon)`; an
`sqlite3.IntegrityError` from the unique name is caught and reported as
`False`, otherwise the row is inserted and `True` returned. -/
def add_category (db : DB) (n ct ic : String) : Bool × DB :=
  if hasCategoryName db n then (false, db)
  else (true, { db with
                 categories := db.categories ++ [⟨db.nextCatId, n, ct, ic⟩],
                 nextCatId := db.nextCatId + 1 })

/-- The unique key `(category, month, year)` of the `budgets` table. -/
def sameBudgetKey (c : String) (m y : Int) (b : Budget) : Bool :=
  decide (b.category = c) && decide (b.month = m) && decide (b.year = y)

/-- `set_budget`: `INSERT OR REPLACE INTO budgets (category, amount, month,
year)` — SQLite deletes any row conflicting on the unique key and appends
the new row with a fresh rowid. -/
def set_budget (db : DB) (c : String) (a : ℚ) (m y : Int) : DB :=
  { db with
      budgets := db.budgets.filter (fun b => !sameBudgetKey c m y b)
                   ++ [⟨db.nextBudgetId, c, a, m, y⟩],
      nextBudgetId := db.nextBudgetId + 1 }

/-- `get_budget`: `SELECT amount FROM budgets WHERE category = ? AND
month = ? AND year = ?`, first row or `None`. -/
def get_budget (db : DB) (c : String) (m y : Int) : Option ℚ :=
  (db.budgets.find? (sameBudgetKey c m y)).map Budget.amount

/-- `get_all_budgets`: `SELECT category, amount FROM budgets WHERE
month = ? AND year = ?`, in storage order. -/
def get_all_budgets (db : DB) (m y : Int) : List (String × ℚ) :=
  (db.budgets.filter (fun b => decide (b.month = m) && decide (b.year = y))).map
    (fun b => (b.category, b.amount))

/-- The `WHERE type = 'expense' AND date >= ? AND date <= ?` clause of
`get_spending_by_category`. -/
def expenseInRange (s e : String) (t : Txn) : Bool :=
  decide (t.ttype = "expense") && decide (s ≤ t.date) && decide (t.date ≤ e)

/-- `SUM(amount)` of the rows of one `GROUP BY category` group. -/
def categoryTotal (txns : List Txn) (c : String) : ℚ :=
  ((txns.filter (fun t => decide (t.category = c))).map Txn.amount).sum

/-- The `GROUP BY category` result: one `(category, SUM(amount))` pair per
distinct category of the selected rows. -/
def groupByCategory (txns : List Txn) : List (String × ℚ) :=
  ((txns.map Txn.category).dedup).map (fun c => (c, categoryTotal txns c))

/-- The `ORDER BY total DESC` ordering of `get_spending_by_category`. -/
def totalDesc (a b : String × ℚ) : Prop := b.2 ≤ a.2

instance : DecidableRel totalDesc :=
  fun a b => inferInstanceAs (Decidable (b.2 ≤ a.2))

instance : IsTotal (String × ℚ) totalDesc := ⟨fun a b => le_total b.2 a.2⟩

instance : IsTrans (String × ℚ) totalDesc := ⟨fun _ _ _ h1 h2 => le_trans h2 h1⟩

/-- `get_spending_by_category`: `SELECT category, SUM(amount) as total FROM
transactions WHERE type = 'expense' AND date >= ? AND date <= ? GROUP BY
category ORDER BY total DESC`. -/
def get_spending_by_category (db : DB) (s e : String) : List (String × ℚ) :=
  List.insertionSort totalDesc (groupByCategory (db.transactions.filter (expenseInRange s e)))

/-- `clear_all_data`: `DELETE FROM transactions; DELETE FROM budgets`. -/
def clear_all_data (db : DB) : DB :=
  { db with transactions := [], budgets := [] }

/-- One public state-changing operation of `BudgetDatabase` (the read-only
queries do not change the state). -/
inductive Op where
  | init : Op
  | addTxn : ℚ → String → String → String → String → Op
  | delTxn : Nat → Op
  | addCat : String → String → String → Op
  | setBud : String → ℚ → Int → Int → Op
  | clear : Op

/-- The state transition of one operation. -/
def applyOp (db : DB) : Op → DB
  | .init => init_database db
  | .addTxn a c d dt ty => add_transaction db a c d dt ty
  | .delTxn i => delete_transaction db i
  | .addCat n t i => (add_category db n t i).2
  | .setBud c a m y => set_budget db c a m y
  | .clear => clear_all_data db

/-- The state after a sequence of public operations, starting from the state
the `BudgetDatabase` constructor produces (a fresh file initialized by
`init_database`). -/
def runOps (ops : List Op) : DB := ops.foldl applyOp (init_database emptyDB)

/-- The uniqueness invariant of the `budgets` table: no two rows share the
unique key `(category, month, year)`. -/
def BudgetKeyUnique (db : DB) : Prop :=
  db.budgets.Pairwise
    (fun a b => ¬(a.category = b.category ∧ a.month = b.month ∧ a.year = b.year))

/-! Helper lemmas about the category seeding loop of `init_database`. -/

theorem seedFold_cons (h : String × String × String) (t : List (String × String × String))
    (db : DB) : seedFold (h :: t) db = seedFold t (insertCatIfAbsent db h.1 h.2.1 h.2.2) := rfl

theorem insertCatIfAbsent_transactions (db : DB) (n ct ic : String) :
    (insertCatIfAbsent db n ct ic).transactions = db.transactions := by
  unfold insertCatIfAbsent; split <;> rfl

theorem insertCatIfAbsent_budgets (db : DB) (n ct ic : String) :
    (insertCatIfAbsent db n ct ic).budgets = db.budgets := by
  unfold insertCatIfAbsent; split <;> rfl

theorem hasCategoryName_insert_mono (db : DB) (n ct ic m : String)
    (h : hasCategoryName db m = true) :
    hasCategoryName (insertCatIfAbsent db n ct ic) m = true := by
  unfold insertCatIfAbsent
  split
  · exact h
  · simp only [hasCategoryName] at h ⊢
    simp [List.any_append, h]

theorem hasCategoryName_insert_self (db : DB) (n ct ic : String) :
    hasCategoryName (insertCatIfAbsent db n ct ic) n = true := by
  unfold insertCatIfAbsent
  split <;> simp_all [hasCategoryName, List.any_append]

theorem insertCatIfAbsent_of_present (db : DB) (n ct ic : String)
    (h : hasCategoryName db n = true) : insertCatIfAbsent db n ct ic = db := by
  unfold insertCatIfAbsent; rw [if_pos h]

theorem seedFold_transactions (l : List (String × String × String)) :
    ∀ db : DB, (seedFold l db).transactions = db.transactions := by
  induction l with
  | nil => intro db; rfl
  | cons h t ih =>
    intro db
    rw [seedFold_cons, ih, insertCatIfAbsent_transactions]

theorem seedFold_budgets (l : List (String × String × String)) :
    ∀ db : DB, (seedFold l db).budgets = db.budgets := by
  induction l with
  | nil => intro db; rfl
  | cons h t ih =>
    intro db
    rw [seedFold_cons, ih, insertCatIfAbsent_budgets]

theorem seedFold_hasName_mono (l : List (String × String × String)) :
    ∀ (db : DB) (m : String), hasCategoryName db m = true →
      hasCategoryName (seedFold l db) m = true := by
  induction l with
  | nil => intro db m h; exact h
  | cons h t ih =>
    intro db m hm
    rw [seedFold_cons]
    exact ih _ m (hasCategoryName_insert_mono db _ _ _ m hm)

theorem seedFold_names_present (l : List (String × String × String)) :
    ∀ (db : DB), ∀ x ∈ l, hasCategoryName (seedFold l db) x.1 = true := by
  induction l with
  | nil => intro db x hx; cases hx
  | cons h t ih =>
    intro db x hx
    rw [seedFold_cons]
    rcases List.mem_cons.mp hx with rfl | hx'
    · exact seedFold_hasName_mono t _ _ (hasCategoryName_insert_self db _ _ _)
    · exact ih _ x hx'

theorem seedFold_noop (l : List (String × String × String)) :
    ∀ db : DB, (∀ x ∈ l, hasCategoryName db x.1 = true) → seedFold l db = db := by
  induction l with
  | nil => intro db _; rfl
  | cons h t ih =>
    intro db hall
    rw [seedFold_cons, insertCatIfAbsent_of_present db _ _ _ (hall h (List.mem_cons_self h t))]
    exact ih db (fun x hx => hall x (List.mem_cons_of_mem h hx))

theorem seedFold_categories_append (l : List (String × String × String)) :
    ∀ db : DB, ∃ added, (seedFold l db).categories = db.categories ++ added
      ∧ ∀ c ∈ added, c.name ∈ l.map (fun t => t.1) ∧ hasCategoryName db c.name = false := by
  induction l with
  | nil => intro db; exact ⟨[], by simp [seedFold], by simp⟩
  | cons h t ih =>
    intro db
    rw [seedFold_cons]
    by_cases hh : hasCategoryName db h.1 = true
    · rw [insertCatIfAbsent_of_present db _ _ _ hh]
      obtain ⟨added, heq, hprop⟩ := ih db
      exact ⟨added, heq, fun c hc => ⟨List.mem_cons_of_mem _ ((hprop c hc).1),
        (hprop c hc).2⟩⟩
    · have hins : insertCatIfAbsent db h.1 h.2.1 h.2.2
          = { db with categories := db.categories ++ [⟨db.nextCatId, h.1, h.2.1, h.2.2⟩],
                      nextCatId := db.nextCatId + 1 } := by
        unfold insertCatIfAbsent
        rw [if_neg hh]
      obtain ⟨added, heq, hprop⟩ := ih (insertCatIfAbsent db h.1 h.2.1 h.2.2)
      refine ⟨⟨db.nextCatId, h.1, h.2.1, h.2.2⟩ :: added, ?_, ?_⟩
      · rw [heq, hins]
        simp
      · intro c hc
        rcases List.mem_cons.mp hc with rfl | hc'
        · exact ⟨List.mem_cons_self _ _, Bool.not_eq_true _ ▸ hh⟩
        · have h1 := (hprop c hc').1
          have h2 := (hprop c hc').2
          refine ⟨List.mem_cons_of_mem _ h1, ?_⟩
          by_contra hcon
          have : hasCategoryName db c.name = true := by
            cases hdb : hasCategoryName db c.name
            · exact absurd hdb hcon
            · rfl
          have := hasCategoryName_insert_mono db h.1 h.2.1 h.2.2 c.name this
          rw [this] at h2
          cases h2

/-! Helper lemmas about `set_budget`. -/

theorem budgets_set_budget (db : DB) (c : String) (a : ℚ) (m y : Int) :
    (set_budget db c a m y).budgets
      = db.budgets.filter (fun b => !sameBudgetKey c m y b)
          ++ [⟨db.nextBudgetId, c, a, m, y⟩] := rfl

theorem filter_not_key_set_budget (db : DB) (c : String) (a : ℚ) (m y : Int) :
    (set_budget db c a m y).budgets.filter (fun b => !sameBudgetKey c m y b)
      = db.budgets.filter (fun b => !sameBudgetKey c m y b) := by
  rw [budgets_set_budget, List.filter_append, List.filter_filter]
  simp [sameBudgetKey]

theorem filter_key_set_budget (db : DB) (c : String) (a : ℚ) (m y : Int) :
    (set_budget db c a m y).budgets.filter (sameBudgetKey c m y)
      = [⟨db.nextBudgetId, c, a, m, y⟩] := by
  rw [budgets_set_budget, List.filter_append, List.filter_filter]
  simp [sameBudgetKey]

/-- C10: passing the empty string for any of the four optional filters of
`get_transactions` behaves exactly as omitting that filter, because each
`WHERE` clause is added only when its argument is truthy. -/
theorem get_transactions_empty_string_filters (db : DB) (sd ed ty ca : Option String) :
    get_transactions db (some "") ed ty ca = get_transactions db none ed ty ca
    ∧ get_transactions db sd (some "") ty ca = get_transactions db sd none ty ca
    ∧ get_transactions db sd ed (some "") ca = get_transactions db sd ed none ca
    ∧ get_transactions db sd ed ty (some "") = get_transactions db sd ed ty none := by
  have h1 : txnMatches (some "") ed ty ca = txnMatches none ed ty ca :=
    funext fun t => by simp [txnMatches, passStart]
  have h2 : txnMatches sd (some "") ty ca = txnMatches sd none ty ca :=
    funext fun t => by simp [txnMatches, passEnd]
  have h3 : txnMatches sd ed (some "") ca = txnMatches sd ed none ca :=
    funext fun t => by simp [txnMatches, passType]
  have h4 : txnMatches sd ed ty (some "") = txnMatches sd ed ty none :=
    funext fun t => by simp [txnMatches, passCategory]
  exact ⟨by rw [get_transactions, h1, get_transactions],
         by rw [get_transactions, h2, get_transactions],
         by rw [get_transactions, h3, get_transactions],
         by rw [get_transactions, h4, get_transactions]⟩

/-- C8: after `clear_all_data`, `get_transactions` with no filters and
`get_all_budgets` for every month and year return empty results, while the
categories table — and hence `get_categories` for every argument — is
exactly what it was before the call. -/
theorem clear_all_data_spec (db : DB) :
    get_transactions (clear_all_data db) none none none none = []
    ∧ (∀ m y : Int, get_all_budgets (clear_all_data db) m y = [])
    ∧ (clear_all_data db).categories = db.categories
    ∧ (∀ o : Option String, get_categories (clear_all_data db) o = get_categories db o) :=
  ⟨rfl, fun _ _ => rfl, rfl, fun _ => rfl⟩

/-- C9: `get_categories` returns one entry per stored category of the
requested type, the underlying rows are ordered by name, and each entry is
the single string `icon ++ " " ++ name` rather than a structured pair. -/
theorem get_categories_spec (db : DB) (o : Option String) :
    (get_categories db o).length = (db.categories.filter (catPass o)).length
    ∧ (∀ s, s ∈ get_categories db o ↔
        ∃ c, c ∈ db.categories ∧ catPass o c = true ∧ s = c.icon ++ " " ++ c.name)
    ∧ List.Sorted catNameLe (categoryRows db o)
    ∧ get_categories db o = (categoryRows db o).map (fun c => c.icon ++ " " ++ c.name) := by
  refine ⟨?_, ?_, List.sorted_insertionSort _ _, rfl⟩
  · simp [get_categories, categoryRows]
  · intro s
    simp only [get_categories, categoryRows, List.mem_map, List.mem_insertionSort,
      List.mem_filter]
    constructor
    · rintro ⟨c, ⟨hc, hp⟩, hs⟩
      exact ⟨c, hc, hp, hs.symm⟩
    · rintro ⟨c, hc, hp, hs⟩
      exact ⟨c, ⟨hc, hp⟩, hs.symm⟩

/-- C6: `delete_transaction` removes exactly the rows with the given id
(membership characterisation), is idempotent, is the identity precisely when
no stored row has that id (the silent no-op), and afterwards no
`get_transactions` result contains that id. -/
theorem delete_transaction_spec (db : DB) (tid : Nat) :
    (∀ t, t ∈ (delete_transaction db tid).transactions ↔ t ∈ db.transactions ∧ t.id ≠ tid)
    ∧ delete_transaction (delete_transaction db tid) tid = delete_transaction db tid
    ∧ (delete_transaction db tid = db ↔ ∀ t ∈ db.transactions, t.id ≠ tid)
    ∧ (∀ sd ed ty ca, ∀ t ∈ get_transactions (delete_transaction db tid) sd ed ty ca,
        t.id ≠ tid) := by
  refine ⟨?_, ?_, ?_, ?_⟩
  · intro t
    simp [delete_transaction, List.mem_filter]
  · show ({ db with transactions := _ } : DB) = { db with transactions := _ }
    simp [delete_transaction, List.filter_filter]
  · constructor
    · intro h t ht
      have htr : db.transactions.filter (fun t => decide (t.id ≠ tid)) = db.transactions :=
        congrArg DB.transactions h
      have := (List.filter_eq_self.mp htr) t ht
      simpa using this
    · intro h
      show ({ db with transactions := _ } : DB) = db
      have htr : db.transactions.filter (fun t => decide (t.id ≠ tid)) = db.transactions :=
        List.filter_eq_self.mpr (fun t ht => by simpa using h t ht)
      rw [htr]
  · intro sd ed ty ca t ht
    have h1 : t ∈ (delete_transaction db tid).transactions := by
      have := (List.mem_insertionSort dateDesc).mp ht
      exact (List.mem_filter.mp this).1
    have := (List.mem_filter.mp h1).2
    simpa using this

/-- C7: `add_category` reports a duplicate name as a boolean failure —
it returns `false` exactly when a category with that name already exists,
and in that case the state is unchanged; otherwise it returns `true`,
appends the new row, and the name is present afterwards. -/
theorem add_category_spec (db : DB) (n ct ic : String) :
    ((add_category db n ct ic).1 = false ↔ ∃ c ∈ db.categories, c.name = n)
    ∧ ((add_category db n ct ic).1 = false → (add_category db n ct ic).2 = db)
    ∧ ((add_category db n ct ic).1 = true →
        (add_category db n ct ic).2.categories = db.categories ++ [⟨db.nextCatId, n, ct, ic⟩]
        ∧ hasCategoryName (add_category db n ct ic).2 n = true) := by
  by_cases h : hasCategoryName db n = true
  · have hex : ∃ c ∈ db.categories, c.name = n := by
      simpa [hasCategoryName] using h
    rw [add_category, if_pos h]
    exact ⟨by simpa using hex, fun _ => rfl, by simp⟩
  · have hex : ¬∃ c ∈ db.categories, c.name = n := by
      simpa [hasCategoryName] using h
    rw [add_category, if_neg h]
    refine ⟨by simpa using hex, by simp, fun _ => ⟨rfl, ?_⟩⟩
    simp [hasCategoryName]

/-- C2: `get_transactions` returns exactly the stored transactions
satisfying the conjunction of the supplied filters (dates inclusive on both
endpoints, omitted filters unconstrained), ordered by date descending, and
is empty precisely when no stored transaction matches. -/
theorem get_transactions_spec (db : DB) (sd ed ty ca : Option String) :
    (∀ t, t ∈ get_transactions db sd ed ty ca ↔
        t ∈ db.transactions ∧ passStart sd t = true ∧ passEnd ed t = true
          ∧ passType ty t = true ∧ passCategory ca t = true)
    ∧ List.Sorted dateDesc (get_transactions db sd ed ty ca)
    ∧ (get_transactions db sd ed ty ca = [] ↔
        ∀ t ∈ db.transactions, txnMatches sd ed ty ca t = false) := by
  refine ⟨?_, List.sorted_insertionSort _ _, ?_⟩
  · intro t
    simp [get_transactions, List.mem_insertionSort, List.mem_filter, txnMatches, and_assoc]
  · have hperm := List.perm_insertionSort dateDesc
      (db.transactions.filter (txnMatches sd ed ty ca))
    constructor
    · intro h
      rw [get_transactions] at h
      have h2 := hperm.symm
      rw [h] at h2
      intro t ht
      have := List.filter_eq_nil_iff.mp h2.eq_nil t ht
      simpa using this
    · intro h
      have hf : db.transactions.filter (txnMatches sd ed ty ca) = [] :=
        List.filter_eq_nil_iff.mpr (fun t ht => by simp [h t ht])
      rw [get_transactions, hf]
      rfl

/-- C5: `init_database` raises no error on an already-initialized store
(it is a total function here), leaves transactions, budgets and every
existing category row untouched, inserts only those default seed categories
whose unique name is absent, and running it twice equals running it once. -/
theorem init_database_idempotent (db : DB) :
    init_database (init_database db) = init_database db
    ∧ (init_database db).transactions = db.transactions
    ∧ (init_database db).budgets = db.budgets
    ∧ ∃ added, (init_database db).categories = db.categories ++ added
        ∧ ∀ c ∈ added, c.name ∈ default_categories.map (fun t => t.1)
            ∧ hasCategoryName db c.name = false := by
  refine ⟨?_, seedFold_transactions _ db, seedFold_budgets _ db,
    seedFold_categories_append _ db⟩
  exact seedFold_noop _ _ (seedFold_names_present default_categories db)

/-- C3: `set_budget` has upsert semantics — after two identical calls
exactly one budget row carries the key `(category, month, year)` and it
holds that amount; a further call with a different amount for the same key
replaces the row, so the `get_all_budgets` row count for that month and
year is unchanged while the key's stored amount is the most recent one. -/
theorem set_budget_upsert (db : DB) (c : String) (a a2 : ℚ) (m y : Int) :
    ((set_budget (set_budget db c a m y) c a m y).budgets.filter
        (sameBudgetKey c m y)).map Budget.amount = [a]
    ∧ (get_all_budgets (set_budget (set_budget db c a m y) c a2 m y) m y).length
        = (get_all_budgets (set_budget db c a m y) m y).length
    ∧ ((set_budget (set_budget db c a m y) c a2 m y).budgets.filter
        (sameBudgetKey c m y)).map Budget.amount = [a2] := by
  refine ⟨by rw [filter_key_set_budget]; rfl, ?_, by rw [filter_key_set_budget]; rfl⟩
  have hlen : ∀ (dbx : DB) (ax : ℚ),
      (get_all_budgets (set_budget dbx c ax m y) m y).length
        = ((dbx.budgets.filter (fun b => !sameBudgetKey c m y b)).filter
            (fun b => decide (b.month = m) && decide (b.year = y))).length + 1 := by
    intro dbx ax
    unfold get_all_budgets
    rw [budgets_set_budget, List.filter_append]
    simp
  rw [hlen, hlen, filter_not_key_set_budget]

/-- C4: in every state reachable from a freshly constructed database by a
sequence of the public state-changing operations, the `budgets` table has
at most one row per `(category, month, year)` key. -/
theorem budget_key_unique_invariant (ops : List Op) : BudgetKeyUnique (runOps ops) := by
  have hset : ∀ (db : DB) (c : String) (a : ℚ) (m y : Int), BudgetKeyUnique db →
      BudgetKeyUnique (set_budget db c a m y) := by
    intro db c a m y h
    unfold BudgetKeyUnique at h ⊢
    rw [budgets_set_budget, List.pairwise_append]
    refine ⟨h.sublist (List.filter_sublist _), List.pairwise_singleton _ _, ?_⟩
    intro x hx b hb hkey
    rcases List.mem_singleton.mp hb with rfl
    have hkx := (List.mem_filter.mp hx).2
    rcases hkey with ⟨h1, h2, h3⟩
    simp [sameBudgetKey, h1, h2, h3] at hkx
  have hstep : ∀ (db : DB) (op : Op), BudgetKeyUnique db → BudgetKeyUnique (applyOp db op) := by
    intro db op h
    cases op with
    | init =>
      show BudgetKeyUnique (init_database db)
      unfold BudgetKeyUnique
      rw [init_database, seedFold_budgets]
      exact h
    | addTxn a c d dt ty => exact h
    | delTxn i => exact h
    | addCat n t i =>
      show BudgetKeyUnique (add_category db n t i).2
      unfold BudgetKeyUnique add_category
      split <;> exact h
    | setBud c a m y => exact hset db c a m y h
    | clear => exact List.Pairwise.nil
  have hrun : ∀ (l : List Op) (db : DB), BudgetKeyUnique db → BudgetKeyUnique (l.foldl applyOp db) := by
    intro l
    induction l with
    | nil => exact fun db h => h
    | cons o t ih => exact fun db h => ih _ (hstep db o h)
  apply hrun
  unfold BudgetKeyUnique
  rw [init_database, seedFold_budgets]
  exact List.Pairwise.nil

/-! Helper lemmas for the `GROUP BY category` aggregation. -/

theorem sum_map_filter_partition (l : List Txn) (p : Txn → Bool) :
    ((l.filter p).map Txn.amount).sum + ((l.filter (fun x => !p x)).map Txn.amount).sum
      = (l.map Txn.amount).sum := by
  induction l with
  | nil => simp
  | cons h t ih =>
    by_cases hp : p h = true <;>
      simp only [List.filter_cons, hp, Bool.not_true, Bool.not_false, if_pos, if_neg,
        ite_true, ite_false, List.map_cons, List.sum_cons, Bool.false_eq_true,
        not_false_eq_true] <;>
      rw [← ih] <;> ring

theorem sum_categoryTotal (keys : List String) :
    keys.Nodup → ∀ txns : List Txn, (∀ t ∈ txns, t.category ∈ keys) →
      (keys.map (categoryTotal txns)).sum = (txns.map Txn.amount).sum := by
  induction keys with
  | nil =>
    intro _ txns hcov
    have : txns = [] := List.eq_nil_iff_forall_not_mem.mpr (fun t ht => by simpa using hcov t ht)
    simp [this]
  | cons c ks ih =>
    intro hnd txns hcov
    obtain ⟨hc, hks⟩ := List.nodup_cons.mp hnd
    have hsum := sum_map_filter_partition txns (fun t => decide (t.category = c))
    have hmap : ks.map (categoryTotal txns)
        = ks.map (categoryTotal (txns.filter (fun t => !decide (t.category = c)))) := by
      apply List.map_congr_left
      intro k hk
      unfold categoryTotal
      rw [List.filter_filter]
      have hfeq : txns.filter (fun t => decide (t.category = k))
          = txns.filter (fun t => decide (t.category = k) && !decide (t.category = c)) := by
        apply List.filter_congr
        intro t _
        by_cases ht : t.category = k
        · have hkc : ¬ k = c := fun hkk => hc (hkk ▸ hk)
          simp [ht, hkc]
        · simp [ht]
      rw [hfeq]
    have hcov2 : ∀ t ∈ txns.filter (fun t => !decide (t.category = c)), t.category ∈ ks := by
      intro t ht
      obtain ⟨htx, hne⟩ := List.mem_filter.mp ht
      have := hcov t htx
      rcases List.mem_cons.mp this with heq | hmem
      · simp [heq] at hne
      · exact hmem
    calc ((c :: ks).map (categoryTotal txns)).sum
        = categoryTotal txns c + (ks.map (categoryTotal txns)).sum := by simp
      _ = categoryTotal txns c
            + (ks.map (categoryTotal (txns.filter (fun t => !decide (t.category = c))))).sum := by
          rw [hmap]
      _ = categoryTotal txns c
            + ((txns.filter (fun t => !decide (t.category = c))).map Txn.amount).sum := by
          rw [ih hks _ hcov2]
      _ = (txns.map Txn.amount).sum := hsum

theorem groupByCategory_sum (txns : List Txn) :
    ((groupByCategory txns).map Prod.snd).sum = (txns.map Txn.amount).sum := by
  unfold groupByCategory
  rw [List.map_map]
  have : (Prod.snd ∘ fun c => (c, categoryTotal txns c)) = categoryTotal txns := rfl
  rw [this]
  exact sum_categoryTotal _ (List.nodup_dedup _) txns
    (fun t ht => List.mem_dedup.mpr (List.mem_map_of_mem Txn.category ht))

theorem groupByCategory_keys_nodup (txns : List Txn) :
    ((groupByCategory txns).map Prod.fst).Nodup := by
  unfold groupByCategory
  rw [List.map_map]
  have : (Prod.fst ∘ fun c => (c, categoryTotal txns c)) = fun c => c := rfl
  rw [this, List.map_id']
  exact List.nodup_dedup _

theorem groupByCategory_keys_mem (txns : List Txn) (r : String × ℚ)
    (hr : r ∈ groupByCategory txns) : ∃ t ∈ txns, t.category = r.1 := by
  unfold groupByCategory at hr
  obtain ⟨c, hc, hpair⟩ := List.mem_map.mp hr
  obtain ⟨t, ht, hcat⟩ := List.mem_map.mp (List.mem_dedup.mp hc)
  exact ⟨t, ht, by rw [hcat, ← hpair]⟩

/-- C1: the totals of `get_spending_by_category` sum to the total amount of
all expense-type transactions with date in the inclusive range, every listed
category is the category of such a transaction (only expense-type
transactions contribute), each category appears at most once, and the rows
are ordered by total descending. -/
theorem get_spending_by_category_spec (db : DB) (s e : String) :
    ((get_spending_by_category db s e).map Prod.snd).sum
        = ((db.transactions.filter (expenseInRange s e)).map Txn.amount).sum
    ∧ (∀ r ∈ get_spending_by_category db s e,
        ∃ t ∈ db.transactions, expenseInRange s e t = true ∧ t.category = r.1)
    ∧ ((get_spending_by_category db s e).map Prod.fst).Nodup
    ∧ List.Sorted totalDesc (get_spending_by_category db s e) := by
  have hperm := List.perm_insertionSort totalDesc
    (groupByCategory (db.transactions.filter (expenseInRange s e)))
  refine ⟨?_, ?_, ?_, List.sorted_insertionSort _ _⟩
  · rw [get_spending_by_category, (hperm.map Prod.snd).sum_eq]
    exact groupByCategory_sum _
  · intro r hr
    have hg : r ∈ groupByCategory (db.transactions.filter (expenseInRange s e)) :=
      hperm.mem_iff.mp hr
    obtain ⟨t, ht, hcat⟩ := groupByCategory_keys_mem _ r hg
    exact ⟨t, (List.mem_filter.mp ht).1, (List.mem_filter.mp ht).2, hcat⟩
  · rw [get_spending_by_category]
    exact (hperm.map Prod.fst).nodup_iff.mpr (groupByCategory_keys_nodup _)

end BudgetPlanner
